import Mathlib

/-!
Verification of the JoshOS heap allocator (src/memory.c).

The allocator manages a fixed 1 MiB region starting at address 16 MiB as an
address-ordered singly linked list of blocks, each a 12-byte header
(next pointer, 32-bit size, 8-bit free flag, padded to 4-byte alignment on
the 32-bit target) followed by its payload.

Shallow embedding: the block chain is a Lean list in address order (the
address of a block is recovered from the tiling of the region: the first
block sits at HEAP_START and each block is followed by the next at
offset headerSize + size).  Payload bytes live in an explicit byte memory
indexed by absolute address; header bytes are represented by the list
itself, not by the byte memory.  All size arithmetic that the C source
performs on uint32_t values is performed modulo 2^32.
-/

namespace JoshOS

/-- 2^32, the modulus of the source's uint32_t arithmetic. -/
def U32 : Nat := 4294967296

/-- sizeof(MemoryBlock): next pointer (4) + uint32_t size (4) + uint8_t flag (1),
padded to 12 bytes on the 32-bit target. -/
def headerSize : Nat := 12

/-- HEAP_START: start of the heap at 16 MB (0x1000000). -/
def HEAP_START : Nat := 16777216

/-- HEAP_SIZE: 1 MB (0x100000). -/
def HEAP_SIZE : Nat := 1048576

/-- HEAP_END = HEAP_START + HEAP_SIZE. -/
def HEAP_END : Nat := HEAP_START + HEAP_SIZE

/-- uint32_t subtraction: a - b computed modulo 2^32 (two's complement wrap). -/
def sub32 (a b : Nat) : Nat := (a + (U32 - b % U32)) % U32

/-- A block header: the stored payload size (uint32_t) and the free flag.
The `next` field of the C struct is represented by list adjacency, which
coincides with the address-order chain in every state the allocator builds. -/
structure MemoryBlock where
  size : Nat
  free : Bool
deriving DecidableEq, Repr

/-- A heap state: the block chain (in address order, tiling the region from
HEAP_START) and the byte contents of the region, indexed by absolute address.
Only payload bytes of `mem` are meaningful; header bytes are shadowed by
`blocks`. -/
structure Heap where
  blocks : List MemoryBlock
  mem : Nat → Nat

/-- Total footprint of a block chain: each block occupies headerSize + size bytes. -/
def listSum : List MemoryBlock → Nat
  | [] => 0
  | b :: bs => (headerSize + b.size) + listSum bs

/-- Sum of the payload sizes of a block chain. -/
def paySum : List MemoryBlock → Nat
  | [] => 0
  | b :: bs => b.size + paySum bs

/-- memory_init: one large free block spanning the region.  The byte memory is
uninitialized in C; the model picks all zeros (no claim depends on it). -/
def memory_init : Heap :=
  { blocks := [⟨HEAP_SIZE - headerSize, true⟩], mem := fun _ => 0 }

/-- The size actually searched for by kmalloc:
`size = (size + 3) & ~3` in uint32_t arithmetic, then promoted to
sizeof(MemoryBlock) if smaller. -/
def kmallocSize (n : Nat) : Nat :=
  max (((n + 3) % U32) / 4 * 4) headerSize

/-- The search loop of kmalloc: walk the chain from address `a`, find the first
block with `free && size >= req`; split it when
`size >= req + sizeof(MemoryBlock) + 4`, else allocate it whole.  Returns the
payload pointer (if any) and the updated chain. -/
def searchFit (req : Nat) : Nat → List MemoryBlock → Option Nat × List MemoryBlock
  | _, [] => (none, [])
  | a, b :: bs =>
    if b.free = true ∧ req ≤ b.size then
      if (req + headerSize + 4) % U32 ≤ b.size then
        (some (a + headerSize),
          ⟨req, false⟩ :: ⟨sub32 b.size (req + headerSize), true⟩ :: bs)
      else
        (some (a + headerSize), ⟨b.size, false⟩ :: bs)
    else
      let res := searchFit req (a + headerSize + b.size) bs
      (res.1, b :: res.2)

/-- kmalloc: align and promote the request, then first-fit search from the
start of the heap.  Returns NULL (none) and leaves the heap unchanged when no
block qualifies. -/
def kmalloc (h : Heap) (n : Nat) : Option Nat × Heap :=
  let res := searchFit (kmallocSize n) HEAP_START h.blocks
  (res.1, { h with blocks := res.2 })

/-- First half of kfree: mark the block whose header sits at address `target`
free, then merge it with its successor if that one is free
(`block->size += sizeof(MemoryBlock) + block->next->size`, unlink).
`a` is the address of the head of the remaining chain. -/
def markAndFwd (target : Nat) : Nat → List MemoryBlock → List MemoryBlock
  | _, [] => []
  | a, b :: bs =>
    if a = target then
      match bs with
      | [] => [{ b with free := true }]
      | b2 :: rest =>
        if b2.free = true then
          ⟨(b.size + headerSize + b2.size) % U32, true⟩ :: rest
        else
          { b with free := true } :: b2 :: rest
    else
      b :: markAndFwd target (a + headerSize + b.size) bs

/-- Second half of kfree: find the predecessor of the block at address
`target` (the walk `while (prev->next != block)`) and, if that predecessor is
free, absorb the block into it. -/
def bwdMerge (target : Nat) : Nat → List MemoryBlock → List MemoryBlock
  | _, [] => []
  | _, [b] => [b]
  | a, b :: b2 :: rest =>
    if a + headerSize + b.size = target then
      if b.free = true then
        { b with size := (b.size + headerSize + b2.size) % U32 } :: rest
      else
        b :: b2 :: rest
    else
      b :: bwdMerge target (a + headerSize + b.size) (b2 :: rest)

/-- kfree: NULL is a no-op; the header address `ptr - sizeof(MemoryBlock)` is
bounds-checked against the region; then the block is marked free and merged
forward and backward.  An in-bounds address that is not a block header would
make the C code scribble on raw memory (undefined behavior); the model leaves
the chain unchanged there (the merge walks fire only at real header
addresses), and no claim exercises that case. -/
def kfree (h : Heap) (ptr : Nat) : Heap :=
  if ptr = 0 then h
  else
    let addr := ptr - headerSize
    if addr < HEAP_START ∨ HEAP_END ≤ addr then h
    else { h with blocks := bwdMerge addr HEAP_START (markAndFwd addr HEAP_START h.blocks) }

/-- kcalloc: `total_size = num * size` in uint32_t arithmetic (wraps silently),
kmalloc, then zero the `total_size` payload bytes on success. -/
def kcalloc (h : Heap) (num size : Nat) : Option Nat × Heap :=
  let total := (num * size) % U32
  let res := kmalloc h total
  match res.1 with
  | none => (none, res.2)
  | some p =>
    (some p,
      { res.2 with mem := fun a => if p ≤ a ∧ a < p + total then 0 else res.2.mem a })

/-- Look up the block whose header sits at address `target`, walking the chain
whose head is at address `a`. -/
def findBlock (target : Nat) : Nat → List MemoryBlock → Option MemoryBlock
  | _, [] => none
  | a, b :: bs => if a = target then some b else findBlock target (a + headerSize + b.size) bs

/-- krealloc: NULL behaves as kmalloc; new_size 0 behaves as kfree and returns
NULL; if the current block already holds new_size bytes the pointer is
returned unchanged; otherwise allocate, copy `min(block->size, new_size)`
bytes, free the old block.  When the pointer is not a live header address the
C code reads a wild header (undefined behavior, outside the block model); the
model returns failure without mutation there, and no claim exercises it. -/
def krealloc (h : Heap) (ptr new_size : Nat) : Option Nat × Heap :=
  if ptr = 0 then kmalloc h new_size
  else if new_size = 0 then (none, kfree h ptr)
  else
    match findBlock (ptr - headerSize) HEAP_START h.blocks with
    | none => (none, h)
    | some b =>
      if new_size ≤ b.size then (some ptr, h)
      else
        let res := kmalloc h new_size
        match res.1 with
        | none => (none, res.2)
        | some np =>
          (some np,
            kfree
              { res.2 with
                mem := fun a =>
                  if np ≤ a ∧ a < np + min b.size new_size then
                    res.2.mem (ptr + (a - np))
                  else res.2.mem a }
              ptr)

/-- The accumulation loop of memory_get_stats: used/free are uint32_t
accumulators. -/
def statsGo : List MemoryBlock → Nat → Nat → Nat × Nat
  | [], u, f => (u, f)
  | b :: bs, u, f =>
    if b.free = true then statsGo bs u ((f + b.size) % U32)
    else statsGo bs ((u + b.size) % U32) f

/-- memory_get_stats: (total, used, free); total is the fixed HEAP_SIZE,
used/free accumulate payload sizes by the free flag. -/
def memory_get_stats (h : Heap) : Nat × Nat × Nat :=
  (HEAP_SIZE, (statsGo h.blocks 0 0).1, (statsGo h.blocks 0 0).2)

/-- No two address-consecutive blocks are both free (invariant I2). -/
def noAdjFreeB : List MemoryBlock → Bool
  | [] => true
  | [_] => true
  | a :: b :: rest => (!(a.free && b.free)) && noAdjFreeB (b :: rest)

/-- Propositional form of invariant I2. -/
def NoAdjFree (L : List MemoryBlock) : Prop := noAdjFreeB L = true

instance (L : List MemoryBlock) : Decidable (NoAdjFree L) := by
  unfold NoAdjFree; infer_instance

/-- Heap states reachable from memory_init by the public operations. -/
inductive Reachable : Heap → Prop where
  | init : Reachable memory_init
  | malloc (h : Heap) (n : Nat) : Reachable h → Reachable (kmalloc h n).2
  | free (h : Heap) (p : Nat) : Reachable h → Reachable (kfree h p)
  | calloc (h : Heap) (num size : Nat) : Reachable h → Reachable (kcalloc h num size).2
  | realloc (h : Heap) (p n : Nat) : Reachable h → Reachable (krealloc h p n).2

/-- A concrete heap used as a test fixture: a free block of 16 payload bytes
followed by an allocated block filling the rest of the region (obtainable
from memory_init by kmalloc 16, kmalloc 1048536, kfree of the first
pointer). -/
def cexHeap : Heap :=
  { blocks := [⟨16, true⟩, ⟨1048536, false⟩], mem := fun _ => 0 }

/-! ### Basic arithmetic and list lemmas -/

theorem listSum_append (P S : List MemoryBlock) :
    listSum (P ++ S) = listSum P + listSum S := by
  induction P with
  | nil => simp [listSum]
  | cons b bs ih => simp [listSum, ih]; omega

theorem listSum_cons (b : MemoryBlock) (S : List MemoryBlock) :
    listSum (b :: S) = headerSize + b.size + listSum S := rfl

theorem paySum_add_headers (L : List MemoryBlock) :
    paySum L + headerSize * L.length = listSum L := by
  induction L with
  | nil => simp [paySum, listSum]
  | cons b bs ih =>
    simp [paySum, listSum, List.length_cons, Nat.mul_add, Nat.mul_one] at *
    omega

theorem sub32_eq (a b : Nat) (hba : b ≤ a) (ha : a < U32) (hb : b < U32) :
    sub32 a b = a - b := by
  unfold sub32
  rw [Nat.mod_eq_of_lt hb]
  have h1 : a + (U32 - b) = (a - b) + U32 := by omega
  rw [h1, Nat.add_mod_right, Nat.mod_eq_of_lt (by omega)]

/-! ### The kmalloc search loop -/

theorem searchFit_none (req a : Nat) (L : List MemoryBlock)
    (h : (searchFit req a L).1 = none) : (searchFit req a L).2 = L := by
  induction L generalizing a with
  | nil => rfl
  | cons b bs ih =>
    by_cases hfit : b.free = true ∧ req ≤ b.size
    · by_cases hsp : (req + headerSize + 4) % U32 ≤ b.size
      · simp [searchFit, hfit, hsp] at h
      · simp [searchFit, hfit, hsp] at h
    · simp only [searchFit, if_neg hfit] at h ⊢
      rw [ih _ h]

theorem searchFit_spec (req a : Nat) (L : List MemoryBlock) (p : Nat)
    (hp : (searchFit req a L).1 = some p) :
    ∃ P b S, L = P ++ b :: S ∧
      (∀ x ∈ P, ¬(x.free = true ∧ req ≤ x.size)) ∧
      b.free = true ∧ req ≤ b.size ∧
      p = a + listSum P + headerSize ∧
      ((req + headerSize + 4) % U32 ≤ b.size ∧
         (searchFit req a L).2 =
           P ++ ⟨req, false⟩ :: ⟨sub32 b.size (req + headerSize), true⟩ :: S
       ∨ b.size < (req + headerSize + 4) % U32 ∧
         (searchFit req a L).2 = P ++ ⟨b.size, false⟩ :: S) := by
  induction L generalizing a with
  | nil => simp [searchFit] at hp
  | cons b bs ih =>
    by_cases hfit : b.free = true ∧ req ≤ b.size
    · by_cases hsp : (req + headerSize + 4) % U32 ≤ b.size
      · refine ⟨[], b, bs, by simp, by simp, hfit.1, hfit.2, ?_, Or.inl ⟨hsp, ?_⟩⟩
        · simp [searchFit, hfit, hsp] at hp
          simp [listSum]
          omega
        · simp [searchFit, hfit, hsp]
      · refine ⟨[], b, bs, by simp, by simp, hfit.1, hfit.2, ?_, Or.inr ⟨by omega, ?_⟩⟩
        · simp [searchFit, hfit, hsp] at hp
          simp [listSum]
          omega
        · simp [searchFit, hfit, hsp]
    · simp only [searchFit, if_neg hfit] at hp ⊢
      obtain ⟨P, c, S, hbs, hmin, hcf, hcs, hpp, hres⟩ := ih (a + headerSize + b.size) hp
      refine ⟨b :: P, c, S, by simp [hbs], ?_, hcf, hcs, ?_, ?_⟩
      · intro x hx
        rcases List.mem_cons.mp hx with rfl | hx
        · exact hfit
        · exact hmin x hx
      · rw [hpp, listSum_cons]; omega
      · rcases hres with ⟨hsp, h2⟩ | ⟨hsp, h2⟩
        · exact Or.inl ⟨hsp, by simp [h2]⟩
        · exact Or.inr ⟨hsp, by simp [h2]⟩

theorem searchFit_succeeds (req a : Nat) (L : List MemoryBlock)
    (hex : ∃ bl ∈ L, bl.free = true ∧ req ≤ bl.size) :
    ∃ p, (searchFit req a L).1 = some p := by
  induction L generalizing a with
  | nil => simp at hex
  | cons b bs ih =>
    by_cases hfit : b.free = true ∧ req ≤ b.size
    · by_cases hsp : (req + headerSize + 4) % U32 ≤ b.size
      · exact ⟨a + headerSize, by simp [searchFit, hfit, hsp]⟩
      · exact ⟨a + headerSize, by simp [searchFit, hfit, hsp]⟩
    · rcases hex with ⟨bl, hbl, hblf⟩
      rcases List.mem_cons.mp hbl with rfl | hbl
      · exact absurd hblf hfit
      · obtain ⟨p, hp⟩ := ih (a + headerSize + b.size) ⟨bl, hbl, hblf⟩
        exact ⟨p, by simp [searchFit, hfit, hp]⟩

/-! ### Localization of the kfree walks -/

theorem headerSize_eq : headerSize = 12 := rfl

theorem markAndFwd_append (target a : Nat) (P rest : List MemoryBlock)
    (ht : target = a + listSum P) :
    markAndFwd target a (P ++ rest) = P ++ markAndFwd target target rest := by
  induction P generalizing a with
  | nil => simp [listSum] at ht; simp [ht]
  | cons b P' ih =>
    have hh : headerSize = 12 := rfl
    have hls : listSum (b :: P') = headerSize + b.size + listSum P' := rfl
    have hne : ¬(a = target) := by rw [ht, hls]; omega
    simp only [List.cons_append, markAndFwd, if_neg hne]
    congr 1
    exact ih (a + headerSize + b.size) (by rw [ht, hls]; omega)

theorem bwdMerge_le (target a : Nat) (L : List MemoryBlock) (h : target ≤ a) :
    bwdMerge target a L = L := by
  induction L generalizing a with
  | nil => rfl
  | cons b bs ih =>
    cases bs with
    | nil => rfl
    | cons b2 rest =>
      have hh : headerSize = 12 := rfl
      have hne : ¬(a + headerSize + b.size = target) := by omega
      simp only [bwdMerge, if_neg hne]
      rw [ih (a + headerSize + b.size) (by omega)]

theorem bwdMerge_append (target a : Nat) (P rest : List MemoryBlock)
    (h : a + listSum P < target) :
    bwdMerge target a (P ++ rest) = P ++ bwdMerge target (a + listSum P) rest := by
  induction P generalizing a with
  | nil => simp [listSum]
  | cons b P' ih =>
    have hh : headerSize = 12 := rfl
    have hls : listSum (b :: P') = headerSize + b.size + listSum P' := rfl
    have hne : ¬(a + headerSize + b.size = target) := by rw [hls] at h; omega
    rcases P' with _ | ⟨q, P''⟩
    · rcases rest with _ | ⟨c, tail⟩
      · simp [bwdMerge]
      · have ha : a + listSum [b] = a + headerSize + b.size := by
          simp [listSum]; omega
        simp only [List.cons_append, List.nil_append, ha]
        simp only [bwdMerge, if_neg hne]
    · have haddr : a + headerSize + b.size + listSum (q :: P'') = a + listSum (b :: q :: P'') := by
        rw [hls]; omega
      have hstep : bwdMerge target a ((b :: q :: P'') ++ rest)
          = b :: bwdMerge target (a + headerSize + b.size) ((q :: P'') ++ rest) := by
        simp only [List.cons_append, bwdMerge, if_neg hne]
        rfl
      rw [hstep, ih (a + headerSize + b.size) (by omega), haddr]
      simp

/-! ### The no-adjacent-free invariant -/

theorem noAdj_nil : NoAdjFree [] := rfl

theorem noAdj_single (b : MemoryBlock) : NoAdjFree [b] := rfl

theorem noAdj_cc (x y : MemoryBlock) (L : List MemoryBlock) :
    NoAdjFree (x :: y :: L) ↔
      ¬(x.free = true ∧ y.free = true) ∧ NoAdjFree (y :: L) := by
  unfold NoAdjFree
  cases hx : x.free <;> cases hy : y.free <;>
    simp [noAdjFreeB, hx, hy]

theorem noAdj_cons_iff (c : MemoryBlock) (S : List MemoryBlock) :
    NoAdjFree (c :: S) ↔
      NoAdjFree S ∧ ∀ y ∈ S.head?, ¬(c.free = true ∧ y.free = true) := by
  cases S with
  | nil => simp [noAdj_nil, noAdj_single]
  | cons d rest =>
    rw [noAdj_cc]
    simp only [List.head?_cons, Option.mem_def, Option.some.injEq, forall_eq']
    tauto

theorem noAdj_middle (P : List MemoryBlock) (c : MemoryBlock) (S : List MemoryBlock) :
    NoAdjFree (P ++ c :: S) ↔ NoAdjFree (P ++ [c]) ∧ NoAdjFree (c :: S) := by
  induction P with
  | nil => simp [noAdj_single]
  | cons b P' ih =>
    cases P' with
    | nil =>
      simp only [List.nil_append, List.cons_append]
      rw [noAdj_cc, noAdj_cc]
      have := noAdj_single c
      tauto
    | cons b2 P'' =>
      simp only [List.cons_append] at ih ⊢
      rw [noAdj_cc, noAdj_cc, ih]
      tauto

theorem noAdj_congr_free (P : List MemoryBlock) (q q' : MemoryBlock)
    (hf : q.free = q'.free) :
    NoAdjFree (P ++ [q]) ↔ NoAdjFree (P ++ [q']) := by
  induction P with
  | nil => simp [noAdj_single]
  | cons b P' ih =>
    cases P' with
    | nil =>
      simp only [List.cons_append, List.nil_append]
      rw [noAdj_cc, noAdj_cc, hf]
      have := noAdj_single q
      have := noAdj_single q'
      tauto
    | cons b2 P'' =>
      simp only [List.cons_append] at ih ⊢
      rw [noAdj_cc, noAdj_cc, ih]

/-! ### The operations preserve the region footprint (invariant I1) -/

theorem U32_eq : U32 = 4294967296 := rfl

theorem searchFit_listSum (req a : Nat) (L : List MemoryBlock)
    (hsum : listSum L + 5 ≤ U32) :
    listSum (searchFit req a L).2 = listSum L := by
  induction L generalizing a with
  | nil => rfl
  | cons b bs ih =>
    have hh : headerSize = 12 := rfl
    have hu : U32 = 4294967296 := rfl
    have hls : listSum (b :: bs) = headerSize + b.size + listSum bs := rfl
    by_cases hfit : b.free = true ∧ req ≤ b.size
    · by_cases hsp : (req + headerSize + 4) % U32 ≤ b.size
      · have hr16 : req + headerSize + 4 < U32 := by omega
        rw [Nat.mod_eq_of_lt hr16] at hsp
        have hsub : sub32 b.size (req + headerSize) = b.size - (req + headerSize) := by
          apply sub32_eq <;> omega
        simp [searchFit, hfit, Nat.mod_eq_of_lt hr16, hsp, hsub, listSum]
        omega
      · simp [searchFit, hfit, hsp, listSum]
    · simp only [searchFit, if_neg hfit]
      simp [listSum, ih (a + headerSize + b.size) (by omega)]

theorem markAndFwd_listSum (target a : Nat) (L : List MemoryBlock)
    (hsum : listSum L ≤ U32) :
    listSum (markAndFwd target a L) = listSum L := by
  induction L generalizing a with
  | nil => rfl
  | cons b bs ih =>
    have hh : headerSize = 12 := rfl
    have hu : U32 = 4294967296 := rfl
    by_cases ha : a = target
    · rcases bs with _ | ⟨b2, rest⟩
      · simp [markAndFwd, ha, listSum]
      · by_cases hb2 : b2.free = true
        · have hls : listSum (b :: b2 :: rest)
              = headerSize + b.size + (headerSize + b2.size + listSum rest) := rfl
          have hlt : b.size + headerSize + b2.size < U32 := by omega
          simp [markAndFwd, ha, hb2, listSum, Nat.mod_eq_of_lt hlt]
          omega
        · simp [markAndFwd, ha, hb2, listSum]
    · have hls : listSum (b :: bs) = headerSize + b.size + listSum bs := rfl
      simp [markAndFwd, ha, listSum, ih (a + headerSize + b.size) (by omega)]

theorem bwdMerge_listSum (target a : Nat) (L : List MemoryBlock)
    (hsum : listSum L ≤ U32) :
    listSum (bwdMerge target a L) = listSum L := by
  induction L generalizing a with
  | nil => rfl
  | cons b bs ih =>
    have hh : headerSize = 12 := rfl
    have hu : U32 = 4294967296 := rfl
    rcases bs with _ | ⟨b2, rest⟩
    · rfl
    · have hls : listSum (b :: b2 :: rest)
          = headerSize + b.size + (headerSize + b2.size + listSum rest) := rfl
      by_cases ha : a + headerSize + b.size = target
      · by_cases hbf : b.free = true
        · have hlt : b.size + headerSize + b2.size < U32 := by omega
          simp [bwdMerge, ha, hbf, listSum, Nat.mod_eq_of_lt hlt]
          omega
        · simp [bwdMerge, ha, hbf, listSum]
      · have hls2 : listSum (b2 :: rest) = headerSize + b2.size + listSum rest := rfl
        simp [bwdMerge, ha, listSum, ih (a + headerSize + b.size) (by omega), hls2]

theorem kmalloc_preserves (h : Heap) (n : Nat) (hsum : listSum h.blocks = HEAP_SIZE) :
    listSum (kmalloc h n).2.blocks = HEAP_SIZE := by
  show listSum (searchFit (kmallocSize n) HEAP_START h.blocks).2 = HEAP_SIZE
  rw [searchFit_listSum _ _ _ (by rw [hsum]; decide), hsum]

theorem kfree_preserves (h : Heap) (p : Nat) (hsum : listSum h.blocks = HEAP_SIZE) :
    listSum (kfree h p).blocks = HEAP_SIZE := by
  unfold kfree
  by_cases hp : p = 0
  · simp [hp, hsum]
  · simp only [if_neg hp]
    by_cases hb : p - headerSize < HEAP_START ∨ HEAP_END ≤ p - headerSize
    · simp [hb, hsum]
    · simp only [if_neg hb]
      show listSum (bwdMerge _ _ (markAndFwd _ _ h.blocks)) = _
      have h1 : listSum (markAndFwd (p - headerSize) HEAP_START h.blocks) = HEAP_SIZE := by
        rw [markAndFwd_listSum _ _ _ (by rw [hsum]; decide), hsum]
      rw [bwdMerge_listSum _ _ _ (by rw [h1]; decide), h1]

theorem kcalloc_preserves (h : Heap) (num sz : Nat)
    (hsum : listSum h.blocks = HEAP_SIZE) :
    listSum (kcalloc h num sz).2.blocks = HEAP_SIZE := by
  unfold kcalloc
  rcases hres : (kmalloc h ((num * sz) % U32)).1 with _ | p
  · simp only [hres]
    exact kmalloc_preserves h _ hsum
  · simp only [hres]
    exact kmalloc_preserves h _ hsum

theorem krealloc_preserves (h : Heap) (p n : Nat)
    (hsum : listSum h.blocks = HEAP_SIZE) :
    listSum (krealloc h p n).2.blocks = HEAP_SIZE := by
  unfold krealloc
  by_cases hp : p = 0
  · simp only [if_pos hp]
    exact kmalloc_preserves h n hsum
  · simp only [if_neg hp]
    by_cases hn : n = 0
    · simp only [if_pos hn]
      exact kfree_preserves h p hsum
    · simp only [if_neg hn]
      rcases hfb : findBlock (p - headerSize) HEAP_START h.blocks with _ | b
      · simp only [hfb]
        exact hsum
      · simp only [hfb]
        by_cases hle : n ≤ b.size
        · simp only [if_pos hle]
          exact hsum
        · simp only [if_neg hle]
          rcases hres : (kmalloc h n).1 with _ | np
          · simp only [hres]
            exact kmalloc_preserves h n hsum
          · simp only [hres]
            exact kfree_preserves _ p (kmalloc_preserves h n hsum)

theorem reachable_listSum (h : Heap) (hr : Reachable h) :
    listSum h.blocks = HEAP_SIZE := by
  induction hr with
  | init => decide
  | malloc h n _ ih => exact kmalloc_preserves h n ih
  | free h p _ ih => exact kfree_preserves h p ih
  | calloc h num sz _ ih => exact kcalloc_preserves h num sz ih
  | realloc h p n _ ih => exact krealloc_preserves h p n ih

/-! ### The stats accumulation -/

theorem statsGo_spec (L : List MemoryBlock) (u f : Nat)
    (hlt : u + f + paySum L < U32) :
    (statsGo L u f).1 + (statsGo L u f).2 = u + f + paySum L := by
  induction L generalizing u f with
  | nil => simp [statsGo, paySum]
  | cons b bs ih =>
    have hps : paySum (b :: bs) = b.size + paySum bs := rfl
    by_cases hb : b.free = true
    · rw [show statsGo (b :: bs) u f = statsGo bs u ((f + b.size) % U32) from by
        simp [statsGo, hb]]
      rw [Nat.mod_eq_of_lt (show f + b.size < U32 by omega)]
      rw [ih u (f + b.size) (by omega)]
      omega
    · rw [show statsGo (b :: bs) u f = statsGo bs ((u + b.size) % U32) f from by
        simp [statsGo, hb]]
      rw [Nat.mod_eq_of_lt (show u + b.size < U32 by omega)]
      rw [ih (u + b.size) f (by omega)]
      omega

/-! ### kfree at a block found in the chain -/

theorem markAndFwd_found_nil (P : List MemoryBlock) (b : MemoryBlock) :
    markAndFwd (HEAP_START + listSum P) HEAP_START (P ++ [b])
      = P ++ [{ b with free := true }] := by
  rw [markAndFwd_append _ _ P [b] rfl]
  congr 1
  simp [markAndFwd]

theorem markAndFwd_found_free (P : List MemoryBlock) (b b2 : MemoryBlock)
    (rest : List MemoryBlock) (hb2 : b2.free = true) :
    markAndFwd (HEAP_START + listSum P) HEAP_START (P ++ b :: b2 :: rest)
      = P ++ ⟨(b.size + headerSize + b2.size) % U32, true⟩ :: rest := by
  rw [markAndFwd_append _ _ P (b :: b2 :: rest) rfl]
  congr 1
  simp [markAndFwd, hb2]

theorem markAndFwd_found_alloc (P : List MemoryBlock) (b b2 : MemoryBlock)
    (rest : List MemoryBlock) (hb2 : b2.free = false) :
    markAndFwd (HEAP_START + listSum P) HEAP_START (P ++ b :: b2 :: rest)
      = P ++ { b with free := true } :: b2 :: rest := by
  rw [markAndFwd_append _ _ P (b :: b2 :: rest) rfl]
  congr 1
  simp [markAndFwd, hb2]

theorem bwdMerge_found (P0 : List MemoryBlock) (q c : MemoryBlock)
    (S : List MemoryBlock) :
    bwdMerge (HEAP_START + listSum (P0 ++ [q])) HEAP_START ((P0 ++ [q]) ++ c :: S)
      = if q.free = true
        then P0 ++ { q with size := (q.size + headerSize + c.size) % U32 } :: S
        else P0 ++ q :: c :: S := by
  have hh : headerSize = 12 := rfl
  have hq : listSum (P0 ++ [q]) = listSum P0 + (headerSize + q.size) := by
    rw [listSum_append]; simp [listSum]
  have hlt : HEAP_START + listSum P0 < HEAP_START + listSum (P0 ++ [q]) := by omega
  have hshape : (P0 ++ [q]) ++ c :: S = P0 ++ (q :: c :: S) := by simp
  rw [hshape, bwdMerge_append _ _ _ _ hlt]
  have htrig : HEAP_START + listSum P0 + headerSize + q.size
      = HEAP_START + listSum (P0 ++ [q]) := by omega
  have hstep : bwdMerge (HEAP_START + listSum (P0 ++ [q])) (HEAP_START + listSum P0)
      (q :: c :: S)
      = if q.free = true
        then { q with size := (q.size + headerSize + c.size) % U32 } :: S
        else q :: c :: S := by
    simp only [bwdMerge, if_pos htrig]
  rw [hstep]
  by_cases hqf : q.free = true <;> simp [hqf]

theorem noAdj_append_left (P Q : List MemoryBlock) (h : NoAdjFree (P ++ Q)) :
    NoAdjFree P := by
  induction P with
  | nil => exact noAdj_nil
  | cons b P' ih =>
    cases P' with
    | nil => exact noAdj_single b
    | cons b2 P'' =>
      simp only [List.cons_append] at h
      have h' := (noAdj_cc _ _ _).mp h
      exact (noAdj_cc b b2 P'').mpr ⟨h'.1, ih h'.2⟩

theorem prev_not_free (P : List MemoryBlock) (b : MemoryBlock) (S : List MemoryBlock)
    (hadj : NoAdjFree (P ++ b :: S)) (hbf : b.free = true) :
    ∀ P0 q, P = P0 ++ [q] → q.free = false := by
  rintro P0 q rfl
  have h1 := (noAdj_middle P0 q (b :: S)).mp (by simpa using hadj)
  have h2 := ((noAdj_cc q b S).mp h1.2).1
  cases hq : q.free
  · rfl
  · exact absurd ⟨hq, hbf⟩ h2

theorem bwdMerge_prev_alloc (P : List MemoryBlock) (c : MemoryBlock)
    (S : List MemoryBlock) (hprev : ∀ P0 q, P = P0 ++ [q] → q.free = false) :
    bwdMerge (HEAP_START + listSum P) HEAP_START (P ++ c :: S) = P ++ c :: S := by
  rcases List.eq_nil_or_concat P with rfl | ⟨P0, q, rfl⟩
  · exact bwdMerge_le _ _ _ (by simp [listSum])
  · simp only [List.concat_eq_append] at hprev ⊢
    rw [bwdMerge_found P0 q c S, if_neg (by simp [hprev P0 q rfl])]
    simp

theorem bwdMerge_noAdj (P : List MemoryBlock) (c : MemoryBlock) (S' : List MemoryBlock)
    (hP : NoAdjFree P) (hcf : c.free = true) (hS : NoAdjFree S')
    (hhead : ∀ y ∈ S'.head?, y.free = false) :
    NoAdjFree (bwdMerge (HEAP_START + listSum P) HEAP_START (P ++ c :: S')) := by
  have hcS : NoAdjFree (c :: S') :=
    (noAdj_cons_iff c S').mpr ⟨hS, fun y hy => by have := hhead y hy; simp [this]⟩
  rcases List.eq_nil_or_concat P with rfl | ⟨P0, q, rfl⟩
  · rw [bwdMerge_le _ _ _ (by simp [listSum])]
    exact hcS
  · simp only [List.concat_eq_append] at hP ⊢
    rw [bwdMerge_found P0 q c S']
    have hP0q : NoAdjFree (P0 ++ [q]) := hP
    by_cases hqf : q.free = true
    · rw [if_pos hqf]
      refine (noAdj_middle P0 _ S').mpr ⟨?_, ?_⟩
      · exact (noAdj_congr_free P0 q
          { q with size := (q.size + headerSize + c.size) % U32 } rfl).mp hP0q
      · exact (noAdj_cons_iff _ S').mpr
          ⟨hS, fun y hy => by have := hhead y hy; simp [this]⟩
    · rw [if_neg hqf]
      refine (noAdj_middle P0 q (c :: S')).mpr ⟨hP0q, ?_⟩
      exact (noAdj_cc q c S').mpr ⟨fun hqc => hqf hqc.1, hcS⟩

theorem kfree_out_of_bounds (h : Heap) (p : Nat)
    (hp : p = 0 ∨ p - headerSize < HEAP_START ∨ HEAP_END ≤ p - headerSize) :
    kfree h p = h := by
  unfold kfree
  by_cases hp0 : p = 0
  · rw [if_pos hp0]
  · rw [if_neg hp0]
    rcases hp with hp | hp
    · exact absurd hp hp0
    · simp only [if_pos hp]

theorem kfree_inbounds (h : Heap) (p : Nat) (hp0 : p ≠ 0)
    (hb : ¬(p - headerSize < HEAP_START ∨ HEAP_END ≤ p - headerSize)) :
    kfree h p = { h with
      blocks := bwdMerge (p - headerSize) HEAP_START
        (markAndFwd (p - headerSize) HEAP_START h.blocks) } := by
  unfold kfree
  rw [if_neg hp0]
  simp only [if_neg hb]

/-- C2: after kfree on a live allocated payload pointer, in a heap with no two
address-consecutive free blocks, the result again has no two
address-consecutive free blocks: forward and backward coalescing never leave
an adjacent free pair. -/
theorem kfree_no_adjacent_free (h : Heap) (P S : List MemoryBlock) (b : MemoryBlock)
    (hb : h.blocks = P ++ b :: S) (hbf : b.free = false)
    (hadj : NoAdjFree h.blocks) (p : Nat)
    (hp : p = HEAP_START + listSum P + headerSize) :
    NoAdjFree (kfree h p).blocks := by
  have hh : headerSize = 12 := rfl
  have hhs : HEAP_START = 16777216 := rfl
  have hp0 : p ≠ 0 := by omega
  by_cases hob : p - headerSize < HEAP_START ∨ HEAP_END ≤ p - headerSize
  · rw [kfree_out_of_bounds h p (Or.inr hob)]
    exact hadj
  · rw [kfree_inbounds h p hp0 hob]
    have haddr : p - headerSize = HEAP_START + listSum P := by omega
    show NoAdjFree (bwdMerge (p - headerSize) HEAP_START
      (markAndFwd (p - headerSize) HEAP_START h.blocks))
    rw [haddr, hb]
    rw [hb] at hadj
    have hPn : NoAdjFree P := noAdj_append_left P (b :: S) hadj
    have hbS : NoAdjFree (b :: S) := ((noAdj_middle P b S).mp hadj).2
    rcases S with _ | ⟨b2, rest⟩
    · rw [markAndFwd_found_nil]
      exact bwdMerge_noAdj P _ [] hPn rfl noAdj_nil (by simp)
    · have hb2S : NoAdjFree (b2 :: rest) := ((noAdj_cons_iff b _).mp hbS).1
      by_cases hb2 : b2.free = true
      · rw [markAndFwd_found_free P b b2 rest hb2]
        have hheads : ∀ y ∈ rest.head?, y.free = false := by
          intro y hy
          have h2 := ((noAdj_cons_iff b2 rest).mp hb2S).2 y hy
          cases hyf : y.free
          · rfl
          · exact absurd ⟨hb2, hyf⟩ h2
        exact bwdMerge_noAdj P _ rest hPn rfl
          (((noAdj_cons_iff b2 rest).mp hb2S).1) hheads
      · rw [markAndFwd_found_alloc P b b2 rest (by simpa using hb2)]
        exact bwdMerge_noAdj P _ (b2 :: rest) hPn rfl hb2S
          (by
            intro y hy
            simp only [List.head?_cons, Option.mem_def, Option.some.injEq] at hy
            subst hy
            simpa using hb2)

/-- Witness for C2 at a concrete heap: one allocated block followed by the
tail free block. -/
theorem kfree_no_adjacent_free_witness :
    (kmalloc memory_init 100).2.blocks = [] ++ ⟨100, false⟩ :: [⟨1048452, true⟩] ∧
    NoAdjFree (kmalloc memory_init 100).2.blocks ∧
    NoAdjFree (kfree (kmalloc memory_init 100).2
      (HEAP_START + listSum [] + headerSize)).blocks :=
  ⟨rfl, by decide,
    kfree_no_adjacent_free (kmalloc memory_init 100).2 [] [⟨1048452, true⟩]
      ⟨100, false⟩ rfl rfl (by decide) _ rfl⟩

/-- kfree of the pointer just returned by a successful kmalloc restores the
heap exactly, in any state satisfying the tiling and no-adjacent-free
invariants. -/
theorem kfree_kmalloc (h : Heap) (n : Nat)
    (hsum : listSum h.blocks = HEAP_SIZE) (hadj : NoAdjFree h.blocks)
    (p : Nat) (hp : (kmalloc h n).1 = some p) :
    kfree (kmalloc h n).2 p = h := by
  have hp' : (searchFit (kmallocSize n) HEAP_START h.blocks).1 = some p := hp
  obtain ⟨P, b, S, hL, hmin, hbf, hbs, hpp, hres⟩ :=
    searchFit_spec (kmallocSize n) HEAP_START h.blocks p hp'
  have hh : headerSize = 12 := rfl
  have hu : U32 = 4294967296 := rfl
  have hhs : HEAP_START = 16777216 := rfl
  have hsz : HEAP_SIZE = 1048576 := rfl
  have hend : HEAP_END = 17825792 := rfl
  have hLsum : listSum P + (headerSize + b.size) + listSum S = HEAP_SIZE := by
    have e : listSum (P ++ b :: S) = listSum P + (headerSize + b.size) + listSum S := by
      rw [listSum_append, listSum_cons]
      omega
    rw [← e, ← hL]
    exact hsum
  have hprev := prev_not_free P b S (hL ▸ hadj) hbf
  have hbeq : (⟨b.size, true⟩ : MemoryBlock) = b := by rw [← hbf]
  have hp0 : p ≠ 0 := by omega
  have hob : ¬(p - headerSize < HEAP_START ∨ HEAP_END ≤ p - headerSize) := by omega
  rw [kfree_inbounds _ p hp0 hob]
  have haddr : p - headerSize = HEAP_START + listSum P := by omega
  have hblocks : (kmalloc h n).2.blocks
      = (searchFit (kmallocSize n) HEAP_START h.blocks).2 := rfl
  have hM : markAndFwd (HEAP_START + listSum P) HEAP_START ((kmalloc h n).2.blocks)
      = P ++ b :: S := by
    rw [hblocks]
    rcases hres with ⟨hsp, h2⟩ | ⟨hsp, h2⟩
    · have hr16 : kmallocSize n + headerSize + 4 < U32 := by omega
      rw [Nat.mod_eq_of_lt hr16] at hsp
      have hsub : sub32 b.size (kmallocSize n + headerSize)
          = b.size - (kmallocSize n + headerSize) := by
        apply sub32_eq <;> omega
      rw [h2, hsub]
      rw [markAndFwd_found_free P _ _ _ rfl]
      have hms : (kmallocSize n + headerSize
          + (b.size - (kmallocSize n + headerSize))) % U32 = b.size := by
        have e2 : kmallocSize n + headerSize
            + (b.size - (kmallocSize n + headerSize)) = b.size := by omega
        rw [e2, Nat.mod_eq_of_lt (by omega)]
      rw [hms, hbeq]
    · rw [h2]
      rcases S with _ | ⟨b2, rest⟩
      · rw [markAndFwd_found_nil]
        show P ++ [(⟨b.size, true⟩ : MemoryBlock)] = P ++ [b]
        rw [hbeq]
      · have hb2f : b2.free = false := by
          have hbS : NoAdjFree (b :: b2 :: rest) :=
            ((noAdj_middle P b (b2 :: rest)).mp (hL ▸ hadj)).2
          have h3 := ((noAdj_cc b b2 rest).mp hbS).1
          cases hy : b2.free
          · rfl
          · exact absurd ⟨hbf, hy⟩ h3
        rw [markAndFwd_found_alloc P _ b2 rest hb2f]
        show P ++ (⟨b.size, true⟩ : MemoryBlock) :: b2 :: rest = P ++ b :: b2 :: rest
        rw [hbeq]
  have hB : bwdMerge (HEAP_START + listSum P) HEAP_START (P ++ b :: S)
      = P ++ b :: S := bwdMerge_prev_alloc P b S hprev
  rw [haddr, hM, hB, ← hL]
  rfl

/-! ### Claim theorems -/

/-- Claim C1: a successful kmalloc returns the payload pointer of the first
block in address order that is free and at least as large as the rounded
request (the request aligned to 4 bytes in 32-bit arithmetic and promoted to
at least the header size); no earlier block is both free and large enough. -/
theorem kmalloc_first_fit (h : Heap) (hr : Reachable h) (n p : Nat)
    (hp : (kmalloc h n).1 = some p) :
    ∃ P b S, h.blocks = P ++ b :: S ∧ b.free = true ∧ kmallocSize n ≤ b.size ∧
      p = HEAP_START + listSum P + headerSize ∧
      ∀ x ∈ P, ¬(x.free = true ∧ kmallocSize n ≤ x.size) := by
  have hp' : (searchFit (kmallocSize n) HEAP_START h.blocks).1 = some p := hp
  obtain ⟨P, b, S, hL, hmin, hbf, hbs, hpp, _⟩ :=
    searchFit_spec (kmallocSize n) HEAP_START h.blocks p hp'
  exact ⟨P, b, S, hL, hbf, hbs, hpp, hmin⟩

/-- Witness for C1 on the freshly initialized heap. -/
theorem kmalloc_first_fit_witness :
    Reachable memory_init ∧ (kmalloc memory_init 100).1 = some 16777228 ∧
    ∃ P b S, memory_init.blocks = P ++ b :: S ∧ b.free = true ∧
      kmallocSize 100 ≤ b.size ∧ 16777228 = HEAP_START + listSum P + headerSize ∧
      ∀ x ∈ P, ¬(x.free = true ∧ kmallocSize 100 ≤ x.size) :=
  ⟨Reachable.init, rfl, kmalloc_first_fit memory_init Reachable.init 100 16777228 rfl⟩

/-- Claim C3 (code bug): the source has no overflow guard.  kmalloc of
0xFFFFFFFF wraps the aligned size to 0 in uint32_t arithmetic, promotes it to
the header size, and SUCCEEDS on the fresh heap instead of returning NULL. -/
theorem kmalloc_overflow_wraps :
    kmallocSize 4294967295 = headerSize ∧
    (kmalloc memory_init 4294967295).1 = some (HEAP_START + headerSize) :=
  ⟨by decide, rfl⟩

/-- Claim C4 (code bug): kcalloc multiplies count by element size without an
overflow guard.  kcalloc(65536, 65536) wraps the total to 0, allocates a
minimum block and returns a valid pointer instead of returning NULL. -/
theorem kcalloc_overflow_wraps :
    (65536 * 65536) % U32 = 0 ∧
    (kcalloc memory_init 65536 65536).1 = some (HEAP_START + headerSize) :=
  ⟨by decide, rfl⟩

/-- Claim C5: if the internal allocation inside a growing krealloc fails, the
whole call returns NULL and the heap — every header and every byte — is
exactly unchanged; in particular the original block is not freed. -/
theorem krealloc_growth_failure (h : Heap) (p ns : Nat) (b : MemoryBlock)
    (hp : p ≠ 0) (hns : ns ≠ 0)
    (hfind : findBlock (p - headerSize) HEAP_START h.blocks = some b)
    (hlive : b.free = false) (hgrow : b.size < ns)
    (hfail : (kmalloc h ns).1 = none) :
    krealloc h p ns = (none, h) := by
  unfold krealloc
  simp only [if_neg hp, if_neg hns, hfind, if_neg (show ¬(ns ≤ b.size) by omega), hfail]
  have h2 : (kmalloc h ns).2 = h := by
    have h3 : (searchFit (kmallocSize ns) HEAP_START h.blocks).2 = h.blocks :=
      searchFit_none _ _ _ hfail
    show ({ h with blocks := (searchFit (kmallocSize ns) HEAP_START h.blocks).2 }) = h
    rw [h3]
  rw [h2]

/-- Witness for C5: the heap is one fully allocated block; growing it cannot
be satisfied and the call leaves the heap untouched. -/
theorem krealloc_growth_failure_witness :
    ((16777228 : Nat) ≠ 0) ∧ ((2097152 : Nat) ≠ 0) ∧
    findBlock (16777228 - headerSize) HEAP_START (kmalloc memory_init 1048564).2.blocks
      = some ⟨1048564, false⟩ ∧
    (⟨1048564, false⟩ : MemoryBlock).free = false ∧
    (1048564 : Nat) < 2097152 ∧
    (kmalloc (kmalloc memory_init 1048564).2 2097152).1 = none ∧
    krealloc (kmalloc memory_init 1048564).2 16777228 2097152
      = (none, (kmalloc memory_init 1048564).2) :=
  ⟨by decide, by decide, rfl, rfl, by decide, rfl,
    krealloc_growth_failure (kmalloc memory_init 1048564).2 16777228 2097152
      ⟨1048564, false⟩ (by decide) (by decide) rfl rfl (by decide) rfl⟩

/-- Claim C6: kfree of NULL, and kfree of any pointer whose recovered header
address lies outside the region, is a complete no-op: the heap is unchanged,
the stats are unchanged, and subsequent kmalloc calls behave identically. -/
theorem kfree_invalid_noop (h : Heap) (p : Nat)
    (hp : p = 0 ∨ p - headerSize < HEAP_START ∨ HEAP_END ≤ p - headerSize) :
    kfree h p = h ∧ memory_get_stats (kfree h p) = memory_get_stats h ∧
      ∀ n, kmalloc (kfree h p) n = kmalloc h n := by
  have h1 := kfree_out_of_bounds h p hp
  exact ⟨h1, by rw [h1], fun n => by rw [h1]⟩

/-- Witness for C6 with the foreign pointer 5 (header address under the
region) on the fresh heap. -/
theorem kfree_invalid_noop_witness :
    ((5 : Nat) = 0 ∨ 5 - headerSize < HEAP_START ∨ HEAP_END ≤ 5 - headerSize) ∧
    (kfree memory_init 5 = memory_init ∧
      memory_get_stats (kfree memory_init 5) = memory_get_stats memory_init ∧
      ∀ n, kmalloc (kfree memory_init 5) n = kmalloc memory_init n) :=
  ⟨by decide, kfree_invalid_noop memory_init 5 (by decide)⟩

/-- Claim C7: in every state reachable from memory_init, the stats traversal
satisfies used + free + header_count * header_size = capacity, and the total
reported is the fixed region capacity. -/
theorem stats_accounting (h : Heap) (hr : Reachable h) :
    (memory_get_stats h).2.1 + (memory_get_stats h).2.2
        + h.blocks.length * headerSize = (memory_get_stats h).1 ∧
    (memory_get_stats h).1 = HEAP_SIZE := by
  have hsum := reachable_listSum h hr
  have hps := paySum_add_headers h.blocks
  have hu : U32 = 4294967296 := rfl
  have hsz : HEAP_SIZE = 1048576 := rfl
  have hstats := statsGo_spec h.blocks 0 0 (by omega)
  refine ⟨?_, rfl⟩
  have e1 : (memory_get_stats h).2.1 = (statsGo h.blocks 0 0).1 := rfl
  have e2 : (memory_get_stats h).2.2 = (statsGo h.blocks 0 0).2 := rfl
  have e3 : (memory_get_stats h).1 = HEAP_SIZE := rfl
  rw [e1, e2, e3, Nat.mul_comm]
  omega

/-- Witness for C7 on the freshly initialized heap. -/
theorem stats_accounting_witness :
    Reachable memory_init ∧
    ((memory_get_stats memory_init).2.1 + (memory_get_stats memory_init).2.2
        + memory_init.blocks.length * headerSize = (memory_get_stats memory_init).1 ∧
      (memory_get_stats memory_init).1 = HEAP_SIZE) :=
  ⟨Reachable.init, stats_accounting memory_init Reachable.init⟩

/-- Claim C8: in a reachable heap satisfying the no-adjacent-free invariant,
allocate(100) then deallocate then allocate(100) again returns the very same
payload pointer: first fit re-acquires the just-freed block. -/
theorem kmalloc_reuse_after_free (h : Heap) (hr : Reachable h)
    (hadj : NoAdjFree h.blocks) (p1 : Nat)
    (hp1 : (kmalloc h 100).1 = some p1) :
    (kmalloc (kfree (kmalloc h 100).2 p1) 100).1 = some p1 := by
  rw [kfree_kmalloc h 100 (reachable_listSum h hr) hadj p1 hp1]
  exact hp1

/-- Witness for C8 on the freshly initialized heap. -/
theorem kmalloc_reuse_after_free_witness :
    Reachable memory_init ∧ NoAdjFree memory_init.blocks ∧
    (kmalloc memory_init 100).1 = some 16777228 ∧
    (kmalloc (kfree (kmalloc memory_init 100).2 16777228) 100).1 = some 16777228 :=
  ⟨Reachable.init, by decide, rfl,
    kmalloc_reuse_after_free memory_init Reachable.init (by decide) 16777228 rfl⟩

/-- Claim C9: shrinking (or equal-size) krealloc on a live pointer returns the
same pointer and performs no write at all: the heap, headers and payload
bytes alike, is returned exactly unchanged. -/
theorem krealloc_shrink_in_place (h : Heap) (p ns : Nat) (b : MemoryBlock)
    (hp : p ≠ 0) (hns : 0 < ns)
    (hfind : findBlock (p - headerSize) HEAP_START h.blocks = some b)
    (hlive : b.free = false) (hle : ns ≤ b.size) :
    krealloc h p ns = (some p, h) := by
  unfold krealloc
  simp only [if_neg hp, if_neg (show ¬(ns = 0) by omega), hfind, if_pos hle]

/-- Witness for C9: shrinking a 100-byte live allocation to 50 bytes. -/
theorem krealloc_shrink_in_place_witness :
    ((16777228 : Nat) ≠ 0) ∧ (0 < (50 : Nat)) ∧
    findBlock (16777228 - headerSize) HEAP_START (kmalloc memory_init 100).2.blocks
      = some ⟨100, false⟩ ∧
    (⟨100, false⟩ : MemoryBlock).free = false ∧ ((50 : Nat) ≤ 100) ∧
    krealloc (kmalloc memory_init 100).2 16777228 50
      = (some 16777228, (kmalloc memory_init 100).2) :=
  ⟨by decide, by decide, rfl, rfl, by decide,
    krealloc_shrink_in_place (kmalloc memory_init 100).2 16777228 50
      ⟨100, false⟩ (by decide) (by decide) rfl rfl (by decide)⟩

theorem kcalloc_fst (h : Heap) (num sz : Nat) :
    (kcalloc h num sz).1 = (kmalloc h ((num * sz) % U32)).1 := by
  unfold kcalloc
  rcases hres : (kmalloc h ((num * sz) % U32)).1 with _ | p <;> simp [hres]

theorem kcalloc_snd_blocks (h : Heap) (num sz : Nat) :
    (kcalloc h num sz).2.blocks = (kmalloc h ((num * sz) % U32)).2.blocks := by
  unfold kcalloc
  rcases hres : (kmalloc h ((num * sz) % U32)).1 with _ | p <;> simp [hres]

/-- Claim C10, counterexample: with total = 0 and a free block of size 16
(at least the minimum block size) first in address order, kcalloc hands out
that whole 16-byte block: no allocated block of the minimum size exists in
the result, so the returned pointer is not a pointer to a minimum-size
block. -/
theorem kcalloc_zero_not_min :
    (0 * 7) % U32 = 0 ∧
    (∃ bl ∈ cexHeap.blocks, bl.free = true ∧ headerSize ≤ bl.size) ∧
    (kcalloc cexHeap 0 7).1 = some (HEAP_START + headerSize) ∧
    (kcalloc cexHeap 0 7).2.blocks = [⟨16, false⟩, ⟨1048536, false⟩] ∧
    (∀ bl ∈ (kcalloc cexHeap 0 7).2.blocks, bl.free = false → bl.size ≠ headerSize) :=
  ⟨by decide, by decide, rfl, rfl, by decide⟩

/-- Claim C10 as amended: when count times elem_size is 0 modulo 2^32 and a
free block of at least the minimum block size exists, kcalloc does not return
NULL: it returns a nonzero in-region payload pointer of an allocated block
whose size is at least the minimum block size. -/
theorem kcalloc_zero_total_succeeds (h : Heap) (num sz : Nat)
    (htot : (num * sz) % U32 = 0)
    (hex : ∃ bl ∈ h.blocks, bl.free = true ∧ headerSize ≤ bl.size)
    (hsum : listSum h.blocks ≤ HEAP_SIZE) :
    ∃ p, (kcalloc h num sz).1 = some p ∧ p ≠ 0 ∧
      HEAP_START + headerSize ≤ p ∧ p + headerSize ≤ HEAP_END ∧
      ∃ P b S, (kcalloc h num sz).2.blocks = P ++ b :: S ∧ b.free = false ∧
        headerSize ≤ b.size ∧ p = HEAP_START + listSum P + headerSize := by
  have hks : kmallocSize 0 = headerSize := by decide
  rw [kcalloc_fst, kcalloc_snd_blocks, htot]
  obtain ⟨p, hp⟩ := searchFit_succeeds (kmallocSize 0) HEAP_START h.blocks
    (by rw [hks]; exact hex)
  obtain ⟨P, b, S, hL, hmin, hbf, hbs, hpp, hres⟩ :=
    searchFit_spec (kmallocSize 0) HEAP_START h.blocks p hp
  have hh : headerSize = 12 := rfl
  have hhs : HEAP_START = 16777216 := rfl
  have hsz : HEAP_SIZE = 1048576 := rfl
  have hend : HEAP_END = 17825792 := rfl
  rw [hks] at hbs
  have hLsum : listSum P + (headerSize + b.size) + listSum S = listSum h.blocks := by
    rw [hL, listSum_append, listSum_cons]
    omega
  refine ⟨p, hp, by omega, by omega, by omega, ?_⟩
  rcases hres with ⟨hsp, h2⟩ | ⟨hsp, h2⟩
  · exact ⟨P, ⟨kmallocSize 0, false⟩, _, h2, rfl, by rw [hks], hpp⟩
  · exact ⟨P, ⟨b.size, false⟩, S, h2, rfl, hbs, hpp⟩

/-- Witness for the amended C10 on the freshly initialized heap with
count 0. -/
theorem kcalloc_zero_total_witness :
    (0 * 5) % U32 = 0 ∧
    (∃ bl ∈ memory_init.blocks, bl.free = true ∧ headerSize ≤ bl.size) ∧
    listSum memory_init.blocks ≤ HEAP_SIZE ∧
    ∃ p, (kcalloc memory_init 0 5).1 = some p ∧ p ≠ 0 ∧
      HEAP_START + headerSize ≤ p ∧ p + headerSize ≤ HEAP_END ∧
      ∃ P b S, (kcalloc memory_init 0 5).2.blocks = P ++ b :: S ∧ b.free = false ∧
        headerSize ≤ b.size ∧ p = HEAP_START + listSum P + headerSize :=
  ⟨by decide, by decide, by decide,
    kcalloc_zero_total_succeeds memory_init 0 5 (by decide) (by decide) (by decide)⟩

end JoshOS
